import Mathlib

/-!
# MeetingAPI.go: the in-memory meeting store and its HTTP handlers

A shallow embedding of `src/MeetingAPI.go`.  The handlers are translated
statement by statement into functions on an execution record `Exec` that
carries the scheduler (mutex flag and map), the response writer, the list of
mutex and map events performed so far, and a fault marker.  What the Go
runtime and the standard library decide (the clock, the order in which a map
is ranged over, the random draw, the JSON codec) is taken as input.
-/

namespace MeetingAPI

/-! ## Data model -/

/-- The standard library's `time.Time`; the handlers only store and copy it. -/
structure Time where
  unixNano : Int
  zoneOffset : Int
  deriving DecidableEq, Repr

/-- Go struct `Participants`. -/
structure Participants where
  Name : String
  Email : String
  RSVP : String
  deriving DecidableEq, Repr

/-- Go struct `Meeting`. -/
structure Meeting where
  Id : String
  Title : String
  Participants : List Participants
  StartTime : Time
  EndTime : Time
  CreationTimeStamp : Time
  deriving DecidableEq, Repr

/-- The zero value of `Meeting` (what `make([]Meeting, n)` fills a slice with). -/
def Meeting.zero : Meeting :=
  ⟨"", "", [], ⟨0, 0⟩, ⟨0, 0⟩, ⟨0, 0⟩⟩

/-- Go type `map[string]Meeting`: finitely many entries with distinct keys. -/
abbrev Store := AList (fun _ : String => Meeting)

/-- Go struct `meetingScheduler`: the embedded `sync.Mutex` (held or free) and
the map. -/
structure meetingScheduler where
  locked : Bool
  store : Store
  deriving DecidableEq

/-- Go function `newMeetingScheduler`: a free mutex and an empty map. -/
def newMeetingScheduler : meetingScheduler :=
  ⟨false, ∅⟩

/-! ## Environment: what the runtime and the libraries supply -/

/-- The `encoding/json` functions the handlers call. -/
structure Json where
  Unmarshal : String → Except String Meeting
  MarshalMeeting : Meeting → Except String String
  MarshalMeetings : List Meeting → Except String String

/-- What one handler call observes from the runtime: the value of
`time.Now().UnixNano()`, the seed of the order in which `range` visits the map,
and the raw draw behind `rand.Intn` (`rand.Intn(n)` is `rand % n`).  The clock
value is an `int64` in Go; every `int64` is an `Int`, and nothing below
depends on its range. -/
structure Env where
  now : Int
  order : List Nat
  rand : Nat

/-- The parts of `*http.Request` the handlers read: `r.Method`,
`r.URL.String()`, `r.Header.Get("content-type")` and the result of
`ioutil.ReadAll(r.Body)`. -/
structure Request where
  Method : String
  URL : String
  contentType : String
  Body : Except String String

/-- The observable state of an `http.ResponseWriter`: the status line once it
is written, the headers sent with it, and the body written so far. -/
structure ResponseWriter where
  status : Option Nat
  header : List (String × String)
  body : String
  deriving DecidableEq, Repr

/-- Runtime faults of `sync.Mutex` in a sequential run. -/
inductive Fault where
  | unlockOfUnlockedMutex
  | deadlock
  deriving DecidableEq, Repr

/-- The functions of the source file that serve requests. -/
inductive Handler where
  | meetings
  | get
  | post
  | getRandomMeeting
  | getMeeting
  deriving DecidableEq, Repr

/-- Events a handler performs on the scheduler, in program order. -/
inductive Event where
  | enter (f : Handler)
  | lock
  | unlock
  | readStore
  | writeStore
  deriving DecidableEq, Repr

/-- The state of one handler execution. -/
structure Exec where
  h : meetingScheduler
  w : ResponseWriter
  trace : List Event
  fault : Option Fault
  deriving DecidableEq

/-- A handler starts with a fresh response writer. -/
def Exec.start (h : meetingScheduler) : Exec :=
  ⟨h, ⟨none, [], ""⟩, [], none⟩

/-! ## Library primitives -/

/-- Method `w.WriteHeader(code)`: the first status written is the one sent. -/
def ResponseWriter.WriteHeader (w : ResponseWriter) (code : Nat) : ResponseWriter :=
  match w.status with
  | none => { w with status := some code }
  | some _ => w

/-- Method `w.Write(bytes)`: writes status 200 first when none was written. -/
def ResponseWriter.Write (w : ResponseWriter) (b : String) : ResponseWriter :=
  { w with status := some (w.status.getD 200), body := w.body ++ b }

/-- Call `w.Header().Add(k, v)`: has no effect once the status is written. -/
def ResponseWriter.HeaderAdd (w : ResponseWriter) (k v : String) : ResponseWriter :=
  match w.status with
  | none => { w with header := w.header ++ [(k, v)] }
  | some _ => w

def Exec.WriteHeader (e : Exec) (code : Nat) : Exec :=
  { e with w := e.w.WriteHeader code }

def Exec.Write (e : Exec) (b : String) : Exec :=
  { e with w := e.w.Write b }

def Exec.HeaderAdd (e : Exec) (k v : String) : Exec :=
  { e with w := e.w.HeaderAdd k v }

/-- Record an event. -/
def Exec.note (e : Exec) (ev : Event) : Exec :=
  { e with trace := e.trace ++ [ev] }

/-- Method `h.Lock()`: on a held mutex the sequential caller blocks for ever. -/
def Exec.Lock (e : Exec) : Exec :=
  if e.h.locked then { e with fault := some Fault.deadlock }
  else { e with h := { e.h with locked := true }, trace := e.trace ++ [Event.lock] }

/-- Method `h.Unlock()`: on a free mutex the Go runtime stops the program with
"sync: unlock of unlocked mutex". -/
def Exec.Unlock (e : Exec) : Exec :=
  if e.h.locked then
    { e with h := { e.h with locked := false }, trace := e.trace ++ [Event.unlock] }
  else { e with fault := some Fault.unlockOfUnlockedMutex }

/-- Sequencing: nothing runs after a fault. -/
def Exec.next (e : Exec) (k : Exec → Exec) : Exec :=
  match e.fault with
  | some _ => e
  | none => k e

/-- Statement `h.store[k] = v`. -/
def Exec.storeSet (e : Exec) (k : String) (v : Meeting) : Exec :=
  { e with h := { e.h with store := e.h.store.insert k v },
           trace := e.trace ++ [Event.writeStore] }

/-- The order in which `range` visits the entries of a map: Go leaves it
unspecified, so it is chosen by a seed, each seed element selecting the next
entry among those not yet visited. -/
def rangeOrder {α : Type} : List Nat → List α → List α
  | [], l => l
  | _ :: _, [] => []
  | k :: ks, x :: xs =>
      (x :: xs).getD (k % (xs.length + 1)) x ::
        rangeOrder ks ((x :: xs).eraseIdx (k % (xs.length + 1)))

/-- One decimal digit as a character. -/
def digitChar (d : Nat) : Char :=
  Char.ofNat (48 + d)

/-- Decimal digits of `n`, least significant digit produced first and put in
front of what is already there. -/
def toDigitsFuel : Nat → Nat → List Char → List Char
  | 0, _, acc => acc
  | fuel + 1, n, acc =>
      if n / 10 = 0 then digitChar (n % 10) :: acc
      else toDigitsFuel fuel (n / 10) (digitChar (n % 10) :: acc)

/-- Decimal rendering of a natural number. -/
def natDigits (n : Nat) : List Char :=
  toDigitsFuel (n + 1) n []

/-- Call `fmt.Sprintf("%d", t)` on an integer: its decimal rendering, with a
leading minus sign when negative. -/
def Sprintf_d : Int → String
  | Int.ofNat n => ⟨natDigits n⟩
  | Int.negSucc n => ⟨'-' :: natDigits (n + 1)⟩

/-- Splitting a character list at every occurrence of `sep`. -/
def splitChars (sep : Char) : List Char → List (List Char)
  | [] => [[]]
  | c :: cs =>
      if c = sep then [] :: splitChars sep cs
      else
        match splitChars sep cs with
        | [] => [[c]]
        | p :: ps => (c :: p) :: ps

/-- Call `strings.Split(s, sep)` for a one-character separator, the only way
the source calls it. -/
def Split (s : String) (sep : Char) : List String :=
  (splitChars sep s.data).map String.mk

/-! ## The handlers -/

/-- The loop of `get` (lines 53 to 59): a slice of `len(h.store)` zero meetings
is filled, one index after the other, in the order `range` visits the map. -/
def get_meetings (order : List Nat) (store : Store) : List Meeting :=
  ((rangeOrder order store.entries).foldl
    (fun (acc : List Meeting × Nat) kv => (acc.1.set acc.2 kv.2, acc.2 + 1))
    (List.replicate store.entries.length Meeting.zero, 0)).1

/-- Go method `meetingScheduler.get`. -/
def get (J : Json) (env : Env) (_r : Request) (e : Exec) : Exec :=
  let e := e.note (Event.enter Handler.get)
  let e := e.note Event.readStore
  let meetings := get_meetings env.order e.h.store
  e.Unlock.next fun e =>
    match J.MarshalMeetings meetings with
    | Except.error err =>
        ((((e.WriteHeader 500).Write err).HeaderAdd "content-type" "application/json").WriteHeader
          200).Write ""
    | Except.ok jsonBytes =>
        ((e.HeaderAdd "content-type" "application/json").WriteHeader 200).Write jsonBytes

/-- Go method `meetingScheduler.post`. -/
def post (J : Json) (env : Env) (r : Request) (e : Exec) : Exec :=
  let e := e.note (Event.enter Handler.post)
  match r.Body with
  | Except.error err => (e.WriteHeader 500).Write err
  | Except.ok bodyBytes =>
      let ct := r.contentType
      if ct ≠ "application/json" then
        (e.WriteHeader 415).Write
          ("need content-type 'application/json', but got '" ++ ct ++ "'")
      else
        match J.Unmarshal bodyBytes with
        | Except.error err => (e.WriteHeader 400).Write err
        | Except.ok decoded =>
            let meeting : Meeting := { decoded with Id := Sprintf_d env.now }
            e.Lock.next fun e =>
              let e := e.storeSet meeting.Id meeting
              e.Unlock

/-- The loop of `getRandomMeeting` (lines 106 to 110) filling the slice `ids`. -/
def getRandomMeeting_ids (order : List Nat) (store : Store) (ids : List String) :
    List String :=
  ((rangeOrder order store.entries).foldl
    (fun (acc : List String × Nat) kv => (acc.1.set acc.2 kv.1, acc.2 + 1))
    (ids, 0)).1

/-- Go method `meetingScheduler.getRandomMeeting`.  The deferred `h.Unlock()`
runs when the function returns, after the response is written. -/
def getRandomMeeting (env : Env) (_r : Request) (e : Exec) : Exec :=
  let e := e.note (Event.enter Handler.getRandomMeeting)
  let e := e.note Event.readStore
  let ids := List.replicate e.h.store.entries.length ""
  e.Lock.next fun e =>
    let e := e.note Event.readStore
    let ids := getRandomMeeting_ids env.order e.h.store ids
    let e :=
      if ids.length = 0 then e.WriteHeader 404
      else
        let target :=
          if ids.length = 1 then ids.getD 0 ""
          else ids.getD (env.rand % ids.length) ""
        (e.HeaderAdd "location" ("/meetings/" ++ target)).WriteHeader 302
    e.Unlock

/-- Go method `meetingScheduler.getMeeting`. -/
def getMeeting (J : Json) (env : Env) (r : Request) (e : Exec) : Exec :=
  let e := e.note (Event.enter Handler.getMeeting)
  let parts := Split r.URL '/'
  if parts.length ≠ 3 then e.WriteHeader 404
  else if parts.getD 0 "" = "random" then getRandomMeeting env r e
  else
    e.Lock.next fun e =>
      let e := e.note Event.readStore
      let found := e.h.store.lookup (parts.getD 0 "")
      e.Unlock.next fun e =>
        match found with
        | none => e.WriteHeader 404
        | some meeting =>
            match J.MarshalMeeting meeting with
            | Except.error err =>
                ((((e.WriteHeader 500).Write err).HeaderAdd "content-type"
                  "application/json").WriteHeader 200).Write ""
            | Except.ok jsonBytes =>
                ((e.HeaderAdd "content-type" "application/json").WriteHeader 200).Write
                  jsonBytes

/-- Go method `meetingScheduler.meetings`. -/
def meetings (J : Json) (env : Env) (r : Request) (e : Exec) : Exec :=
  let e := e.note (Event.enter Handler.meetings)
  if r.Method = "GET" then get J env r e
  else if r.Method = "POST" then post J env r e
  else e.Write "method not allowed"

/-! ## Sequential runs of the server -/

/-- One request served: which handler, what it observes, and the request. -/
structure Op where
  handler : Handler
  env : Env
  req : Request

/-- Run the handler of `op` on scheduler `h` with a fresh response writer. -/
def handle (J : Json) (op : Op) (h : meetingScheduler) : Exec :=
  match op.handler with
  | Handler.meetings => meetings J op.env op.req (Exec.start h)
  | Handler.get => get J op.env op.req (Exec.start h)
  | Handler.post => post J op.env op.req (Exec.start h)
  | Handler.getRandomMeeting => getRandomMeeting op.env op.req (Exec.start h)
  | Handler.getMeeting => getMeeting J op.env op.req (Exec.start h)

/-- The process: its scheduler, and whether a fault has stopped it. -/
structure Server where
  h : meetingScheduler
  stopped : Bool

/-- Serve one request; a stopped process serves nothing. -/
def serve (J : Json) (s : Server) (op : Op) : Server :=
  if s.stopped then s
  else ⟨(handle J op s.h).h, (handle J op s.h).fault.isSome⟩

/-- Serve requests one after another, starting from `newMeetingScheduler()`. -/
def run (J : Json) (ops : List Op) : Server :=
  ops.foldl (serve J) ⟨newMeetingScheduler, false⟩

/-! ## Reading a rendering back, and the vocabulary of the properties -/

/-- Value of a digit character. -/
def digitVal (c : Char) : Nat :=
  c.toNat - 48

/-- Reading a digit list back, most significant digit first. -/
def parseFrom (v : Nat) (cs : List Char) : Nat :=
  cs.foldl (fun a c => 10 * a + digitVal c) v

/-- Request `r` passes the checks of `post` and its body decodes to `m`. -/
def Accepts (J : Json) (r : Request) (m : Meeting) : Prop :=
  ∃ b, r.Body = Except.ok b ∧ r.contentType = "application/json" ∧ J.Unmarshal b = Except.ok m

/-- A create request served by `post`. -/
def postOp (p : Env × Request) : Op :=
  ⟨Handler.post, p.1, p.2⟩

/-- Lock discipline of a trace, starting with the mutex held or free: the
mutex is locked only when free, unlocked only when held, the map is read and
written only while it is held, and it is free at the end. -/
def lockDiscipline : Bool → List Event → Bool
  | held, [] => !held
  | held, Event.enter _ :: es => lockDiscipline held es
  | held, Event.lock :: es => !held && lockDiscipline true es
  | held, Event.unlock :: es => held && lockDiscipline false es
  | held, Event.readStore :: es => held && lockDiscipline held es
  | held, Event.writeStore :: es => held && lockDiscipline held es

/-- What holds of the server after every request: the mutex is free, every key
is the `Id` of the meeting stored under it, and every key is the rendering of
a clock reading. -/
def Server.Inv (s : Server) : Prop :=
  s.h.locked = false ∧
  ∀ k m, s.h.store.lookup k = some m → m.Id = k ∧ ∃ t : Int, k = Sprintf_d t

/-! ## Sample data for the worked instances -/

/-- A codec for the worked instances: the empty body does not decode, any
other body decodes to a meeting with that body as title. -/
def sampleJson : Json :=
  ⟨fun b =>
      if b = "" then Except.error "unexpected end of JSON input"
      else Except.ok { Meeting.zero with Title := b },
    fun m => Except.ok m.Title,
    fun ms => Except.ok (String.join (ms.map fun m => m.Title))⟩

/-- A create request with the given body. -/
def sampleCreate (body : String) : Request :=
  ⟨"POST", "/meetings", "application/json", Except.ok body⟩

/-- A lookup request for the given URL. -/
def sampleLookup (url : String) : Request :=
  ⟨"GET", url, "", Except.ok ""⟩

/-- A handler call that reads `t` from the clock. -/
def sampleEnv (t : Int) : Env :=
  ⟨t, [], 0⟩

/-! ## Lemmas on the library primitives -/

theorem getD_cons_eraseIdx_perm {α : Type} (l : List α) (i : Nat) (d : α)
    (hi : i < l.length) : (l.getD i d :: l.eraseIdx i).Perm l := by
  induction l generalizing i with
  | nil => simp at hi
  | cons x xs ih =>
    cases i with
    | zero => simp
    | succ j =>
      have hj : j < xs.length := by simpa using hi
      have h1 : ((x :: xs).getD (j + 1) d :: (x :: xs).eraseIdx (j + 1))
          = (xs.getD j d :: x :: xs.eraseIdx j) := by simp
      rw [h1]
      exact (List.Perm.swap x (xs.getD j d) (xs.eraseIdx j)).trans ((ih j hj).cons x)

/-- Whatever the seed, `range` visits every entry exactly once. -/
theorem rangeOrder_perm {α : Type} (seed : List Nat) (l : List α) :
    (rangeOrder seed l).Perm l := by
  induction seed generalizing l with
  | nil => cases l <;> simp [rangeOrder]
  | cons k ks ih =>
    cases l with
    | nil => simp [rangeOrder]
    | cons x xs =>
      have hi : k % (xs.length + 1) < (x :: xs).length := by
        simpa using Nat.mod_lt k (Nat.succ_pos xs.length)
      simp only [rangeOrder]
      exact ((ih _).cons _).trans (getD_cons_eraseIdx_perm (x :: xs) _ x hi)

theorem rangeOrder_length {α : Type} (seed : List Nat) (l : List α) :
    (rangeOrder seed l).length = l.length :=
  (rangeOrder_perm seed l).length_eq

/-- Filling a slice index by index: the loop shape shared by `get` and
`getRandomMeeting`. -/
theorem fill_foldl {α β : Type} (f : α → β) (l : List α) (pre rest : List β)
    (hlen : rest.length = l.length) :
    (l.foldl (fun (acc : List β × Nat) a => (acc.1.set acc.2 (f a), acc.2 + 1))
      (pre ++ rest, pre.length)).1 = pre ++ l.map f := by
  induction l generalizing pre rest with
  | nil =>
    have : rest = [] := List.length_eq_zero.mp (by simpa using hlen)
    simp [this]
  | cons a as ih =>
    cases rest with
    | nil => simp at hlen
    | cons r rs =>
      have hlen2 : rs.length = as.length := by simpa using hlen
      have hset : (pre ++ r :: rs).set pre.length (f a) = (pre ++ [f a]) ++ rs := by
        simp [List.set_append]
      have hl : pre.length + 1 = (pre ++ [f a]).length := by simp
      simp only [List.foldl_cons, hset, hl]
      rw [ih (pre ++ [f a]) rs hlen2]
      simp

theorem get_meetings_eq (order : List Nat) (store : Store) :
    get_meetings order store = (rangeOrder order store.entries).map (fun kv => kv.2) := by
  have h := fill_foldl (fun kv : Sigma (fun _ : String => Meeting) => kv.2)
    (rangeOrder order store.entries) [] (List.replicate store.entries.length Meeting.zero)
    (by simp [rangeOrder_length])
  simpa [get_meetings] using h

theorem getRandomMeeting_ids_eq (order : List Nat) (store : Store) :
    getRandomMeeting_ids order store (List.replicate store.entries.length "")
      = (rangeOrder order store.entries).map (fun kv => kv.1) := by
  have h := fill_foldl (fun kv : Sigma (fun _ : String => Meeting) => kv.1)
    (rangeOrder order store.entries) [] (List.replicate store.entries.length "")
    (by simp [rangeOrder_length])
  simpa [getRandomMeeting_ids] using h

/-! ## Decimal rendering -/

theorem digitVal_digitChar (d : Nat) (hd : d < 10) : digitVal (digitChar d) = d := by
  interval_cases d <;> rfl

theorem digitChar_ne_minus (d : Nat) (hd : d < 10) : digitChar d ≠ '-' := by
  interval_cases d <;> decide

theorem parseFrom_toDigitsFuel (fuel n : Nat) (acc : List Char) (h : n < fuel) :
    parseFrom 0 (toDigitsFuel fuel n acc) = parseFrom n acc := by
  induction fuel generalizing n acc with
  | zero => omega
  | succ fuel ih =>
    have hd : digitVal (digitChar (n % 10)) = n % 10 :=
      digitVal_digitChar _ (Nat.mod_lt n (by decide))
    unfold toDigitsFuel
    split
    · rename_i h0
      have hn : n % 10 = n := by omega
      simp only [parseFrom, List.foldl_cons, hd, Nat.mul_zero, Nat.zero_add]
      rw [hn]
    · rename_i h0
      have hlt : n / 10 < fuel := by omega
      rw [ih (n / 10) _ hlt]
      simp only [parseFrom, List.foldl_cons, hd]
      congr 1
      omega

theorem parseFrom_natDigits (n : Nat) : parseFrom 0 (natDigits n) = n := by
  simpa [natDigits, parseFrom] using parseFrom_toDigitsFuel (n + 1) n [] (Nat.lt_succ_self n)

theorem natDigits_injective {a b : Nat} (h : natDigits a = natDigits b) : a = b := by
  have := congrArg (parseFrom 0) h
  simpa [parseFrom_natDigits] using this

theorem toDigitsFuel_head (fuel n : Nat) (acc : List Char) :
    ∃ d rest, d < 10 ∧ toDigitsFuel (fuel + 1) n acc = digitChar d :: rest := by
  induction fuel generalizing n acc with
  | zero =>
    refine ⟨n % 10, acc, Nat.mod_lt n (by decide), ?_⟩
    simp [toDigitsFuel]
  | succ fuel ih =>
    by_cases h0 : n / 10 = 0
    · refine ⟨n % 10, acc, Nat.mod_lt n (by decide), ?_⟩
      rw [toDigitsFuel]; simp [h0]
    · obtain ⟨d, rest, hd, hr⟩ := ih (n / 10) (digitChar (n % 10) :: acc)
      refine ⟨d, rest, hd, ?_⟩
      rw [toDigitsFuel]; simp [h0, hr]

theorem natDigits_head (n : Nat) : ∃ d rest, d < 10 ∧ natDigits n = digitChar d :: rest :=
  toDigitsFuel_head n n []

/-- The identifier `post` assigns is never the empty string. -/
theorem Sprintf_d_ne_empty (t : Int) : Sprintf_d t ≠ "" := by
  cases t with
  | ofNat n =>
    obtain ⟨d, rest, _, h⟩ := natDigits_head n
    intro hc
    have := congrArg String.data hc
    simp [Sprintf_d, h] at this
  | negSucc n =>
    intro hc
    have := congrArg String.data hc
    simp [Sprintf_d] at this

/-- Different clock readings are rendered as different identifiers. -/
theorem Sprintf_d_injective : Function.Injective Sprintf_d := by
  intro a b h
  have hdata := congrArg String.data h
  cases a with
  | ofNat n =>
    cases b with
    | ofNat m =>
      simp only [Sprintf_d] at hdata
      rw [natDigits_injective hdata]
    | negSucc m =>
      obtain ⟨d, rest, hd, hn⟩ := natDigits_head n
      simp only [Sprintf_d, hn, List.cons.injEq] at hdata
      exact absurd hdata.1 (digitChar_ne_minus d hd)
  | negSucc n =>
    cases b with
    | ofNat m =>
      obtain ⟨d, rest, hd, hm⟩ := natDigits_head m
      simp only [Sprintf_d, hm, List.cons.injEq] at hdata
      exact absurd hdata.1.symm (digitChar_ne_minus d hd)
    | negSucc m =>
      simp only [Sprintf_d, List.cons.injEq, true_and] at hdata
      have := natDigits_injective hdata
      have hnm : n = m := by omega
      rw [hnm]

/-! ## Splitting a URL -/

theorem Split_slash (cs : List Char) :
    Split ⟨'/' :: cs⟩ '/' = "" :: Split ⟨cs⟩ '/' := by
  simp [Split, splitChars]

theorem Split_of_head (url : String) (h : url.data.head? = some '/') :
    (Split url '/').getD 0 "" = "" := by
  obtain ⟨data⟩ := url
  cases data with
  | nil => simp at h
  | cons c cs =>
    have hc : c = '/' := by simpa using h
    subst hc
    rw [Split_slash]
    rfl

/-! ## What each handler does -/

theorem post_accepted (J : Json) (env : Env) (r : Request) (m : Meeting) (s : Store)
    (h : Accepts J r m) :
    post J env r (Exec.start ⟨false, s⟩)
      = ⟨⟨false, s.insert (Sprintf_d env.now) { m with Id := Sprintf_d env.now }⟩,
          ⟨none, [], ""⟩,
          [Event.enter Handler.post, Event.lock, Event.writeStore, Event.unlock], none⟩ := by
  obtain ⟨b, hb, hct, hm⟩ := h
  simp [post, hb, hct, hm, Exec.start, Exec.note, Exec.Lock, Exec.next, Exec.storeSet,
    Exec.Unlock]

theorem post_readError (J : Json) (env : Env) (r : Request) (err : String) (e : Exec)
    (h : r.Body = Except.error err) :
    (post J env r e).h = e.h ∧ (post J env r e).fault = e.fault := by
  simp [post, h, Exec.note, Exec.WriteHeader, Exec.Write]

theorem post_wrongType (J : Json) (env : Env) (r : Request) (b : String) (e : Exec)
    (hb : r.Body = Except.ok b) (hct : r.contentType ≠ "application/json") :
    post J env r e
      = ((e.note (Event.enter Handler.post)).WriteHeader 415).Write
          ("need content-type 'application/json', but got '" ++ r.contentType ++ "'") := by
  simp [post, hb, hct]

theorem post_badBody (J : Json) (env : Env) (r : Request) (b err : String) (e : Exec)
    (hb : r.Body = Except.ok b) (hct : r.contentType = "application/json")
    (hm : J.Unmarshal b = Except.error err) :
    post J env r e = ((e.note (Event.enter Handler.post)).WriteHeader 400).Write err := by
  simp [post, hb, hct, hm]

/-- From a free mutex `post` either leaves the scheduler as it is, or stores a
meeting under the rendering of the clock reading, with that rendering as its
`Id`; it never faults. -/
theorem post_summary (J : Json) (env : Env) (r : Request) (s : Store) (tr : List Event) :
    (post J env r ⟨⟨false, s⟩, ⟨none, [], ""⟩, tr, none⟩).fault = none ∧
    ((post J env r ⟨⟨false, s⟩, ⟨none, [], ""⟩, tr, none⟩).h = ⟨false, s⟩ ∨
     ∃ m : Meeting, (post J env r ⟨⟨false, s⟩, ⟨none, [], ""⟩, tr, none⟩).h
        = ⟨false, s.insert (Sprintf_d env.now) ({ m with Id := Sprintf_d env.now } : Meeting)⟩) := by
  unfold post
  cases hb : r.Body with
  | error err => simp [Exec.note, Exec.WriteHeader, Exec.Write]
  | ok b =>
    by_cases hct : r.contentType = "application/json"
    · cases hm : J.Unmarshal b with
      | error err => simp [hct, hm, Exec.note, Exec.WriteHeader, Exec.Write]
      | ok m =>
        simp only [hct, hm, Exec.note, Exec.Lock, Exec.next, Exec.storeSet, Exec.Unlock]
        exact ⟨by simp, Or.inr ⟨m, by simp⟩⟩
    · simp [hct, Exec.note, Exec.WriteHeader, Exec.Write]

/-- From a free mutex `get` stops at its `h.Unlock()`. -/
theorem get_free (J : Json) (env : Env) (r : Request) (s : Store) (tr : List Event)
    (w : ResponseWriter) :
    get J env r ⟨⟨false, s⟩, w, tr, none⟩
      = ⟨⟨false, s⟩, w, tr ++ [Event.enter Handler.get, Event.readStore],
          some Fault.unlockOfUnlockedMutex⟩ := by
  simp [get, Exec.note, Exec.Unlock, Exec.next]

theorem getRandomMeeting_free (env : Env) (r : Request) (s : Store) (tr : List Event) :
    getRandomMeeting env r ⟨⟨false, s⟩, ⟨none, [], ""⟩, tr, none⟩
      = ⟨⟨false, s⟩,
          (if s.entries.length = 0 then ⟨some 404, [], ""⟩
           else ⟨some 302,
             [("location", "/meetings/" ++
                (if s.entries.length = 1 then
                  ((rangeOrder env.order s.entries).map (fun kv => kv.1)).getD 0 ""
                 else ((rangeOrder env.order s.entries).map (fun kv => kv.1)).getD
                    (env.rand % s.entries.length) ""))], ""⟩),
          tr ++ [Event.enter Handler.getRandomMeeting, Event.readStore, Event.lock,
            Event.readStore, Event.unlock], none⟩ := by
  have hids := getRandomMeeting_ids_eq env.order s
  have hlen : ((rangeOrder env.order s.entries).map (fun kv => kv.1)).length
      = s.entries.length := by simp [rangeOrder_length]
  simp only [getRandomMeeting, Exec.note, Exec.Lock, Exec.next, Bool.false_eq_true, if_false]
  rw [hids, hlen]
  by_cases h0 : s.entries.length = 0
  · simp [h0, Exec.Unlock, Exec.WriteHeader, ResponseWriter.WriteHeader]
  · simp [h0, Exec.Unlock, Exec.WriteHeader, ResponseWriter.WriteHeader, Exec.HeaderAdd,
      ResponseWriter.HeaderAdd]

theorem getMeeting_short (J : Json) (env : Env) (r : Request) (e : Exec)
    (h : (Split r.URL '/').length ≠ 3) :
    getMeeting J env r e = (e.note (Event.enter Handler.getMeeting)).WriteHeader 404 := by
  simp [getMeeting, h]

/-- A lookup of a key that is not stored, from a free mutex. -/
theorem getMeeting_absent (J : Json) (env : Env) (r : Request) (s : Store) (tr : List Event)
    (h3 : (Split r.URL '/').length = 3) (hr : (Split r.URL '/').getD 0 "" ≠ "random")
    (hk : s.lookup ((Split r.URL '/').getD 0 "") = none) :
    getMeeting J env r ⟨⟨false, s⟩, ⟨none, [], ""⟩, tr, none⟩
      = ⟨⟨false, s⟩, ⟨some 404, [], ""⟩,
          tr ++ [Event.enter Handler.getMeeting, Event.lock, Event.readStore, Event.unlock],
          none⟩ := by
  simp only [getMeeting, Exec.note]
  rw [if_neg (not_not_intro h3), if_neg hr]
  simp only [Exec.Lock, Exec.next, Bool.false_eq_true, hk, Exec.Unlock, if_true, if_false,
    Exec.WriteHeader, ResponseWriter.WriteHeader, List.append_assoc, List.singleton_append]
  rfl

/-- From a free mutex `getMeeting` never faults and leaves the scheduler as it
found it. -/
theorem getMeeting_free (J : Json) (env : Env) (r : Request) (s : Store) (tr : List Event) :
    (getMeeting J env r ⟨⟨false, s⟩, ⟨none, [], ""⟩, tr, none⟩).h = ⟨false, s⟩ ∧
    (getMeeting J env r ⟨⟨false, s⟩, ⟨none, [], ""⟩, tr, none⟩).fault = none := by
  by_cases h3 : (Split r.URL '/').length = 3
  · by_cases hr : (Split r.URL '/').getD 0 "" = "random"
    · have hg : getMeeting J env r ⟨⟨false, s⟩, ⟨none, [], ""⟩, tr, none⟩
          = getRandomMeeting env r
              ⟨⟨false, s⟩, ⟨none, [], ""⟩, tr ++ [Event.enter Handler.getMeeting], none⟩ := by
        simp only [getMeeting, Exec.note]
        rw [if_neg (not_not_intro h3), if_pos hr]
      rw [hg, getRandomMeeting_free]
      exact ⟨rfl, rfl⟩
    · simp only [getMeeting, Exec.note]
      rw [if_neg (not_not_intro h3), if_neg hr]
      simp only [Exec.Lock, Exec.next, Bool.false_eq_true, Exec.Unlock, if_true, if_false]
      cases hl : s.lookup ((Split r.URL '/').getD 0 "") with
      | none => exact ⟨rfl, rfl⟩
      | some m =>
        simp only []
        cases hj : J.MarshalMeeting m with
        | error err => exact ⟨rfl, rfl⟩
        | ok b => exact ⟨rfl, rfl⟩
  · rw [getMeeting_short J env r _ h3]
    exact ⟨rfl, rfl⟩

/-- From a free mutex every handler leaves the mutex free, and either leaves
the map as it is or stores one meeting under the rendering of the clock
reading, with that rendering as its `Id`. -/
theorem handle_summary (J : Json) (op : Op) (s : Store) :
    (handle J op ⟨false, s⟩).h.locked = false ∧
    ((handle J op ⟨false, s⟩).h.store = s ∨
     ∃ m : Meeting, (handle J op ⟨false, s⟩).h.store
        = s.insert (Sprintf_d op.env.now) ({ m with Id := Sprintf_d op.env.now } : Meeting)) := by
  obtain ⟨f, env, r⟩ := op
  cases f with
  | meetings =>
    simp only [handle, meetings, Exec.start, Exec.note, List.nil_append]
    by_cases hG : r.Method = "GET"
    · simp [hG, get_free]
    · by_cases hP : r.Method = "POST"
      · rw [if_neg hG, if_pos hP]
        rcases (post_summary J env r s [Event.enter Handler.meetings]).2 with h | ⟨m, h⟩
        · rw [h]; exact ⟨rfl, Or.inl rfl⟩
        · rw [h]; exact ⟨rfl, Or.inr ⟨m, rfl⟩⟩
      · rw [if_neg hG, if_neg hP]
        exact ⟨rfl, Or.inl rfl⟩
  | get =>
    simp [handle, Exec.start, get_free]
  | post =>
    simp only [handle, Exec.start]
    rcases (post_summary J env r s []).2 with h | ⟨m, h⟩
    · rw [h]; exact ⟨rfl, Or.inl rfl⟩
    · rw [h]; exact ⟨rfl, Or.inr ⟨m, rfl⟩⟩
  | getRandomMeeting =>
    simp only [handle, Exec.start]
    rw [getRandomMeeting_free]
    exact ⟨rfl, Or.inl rfl⟩
  | getMeeting =>
    simp only [handle, Exec.start]
    rw [(getMeeting_free J env r s []).1]
    exact ⟨rfl, Or.inl rfl⟩

theorem serve_inv (J : Json) (s : Server) (op : Op) (h : s.Inv) : (serve J s op).Inv := by
  obtain ⟨⟨lk, st⟩, stopped⟩ := s
  obtain ⟨hl, hk⟩ := h
  simp only at hl hk
  subst hl
  unfold serve
  by_cases hs : stopped = true
  · rw [if_pos hs]
    exact ⟨rfl, hk⟩
  · rw [if_neg hs]
    obtain ⟨h1, h2⟩ := handle_summary J op st
    refine ⟨h1, ?_⟩
    intro k m hkm
    simp only at hkm
    rcases h2 with h2 | ⟨m0, h2⟩
    · rw [h2] at hkm
      exact hk k m hkm
    · rw [h2] at hkm
      by_cases hkeq : k = Sprintf_d op.env.now
      · subst hkeq
        rw [AList.lookup_insert] at hkm
        have hm := Option.some.inj hkm
        subst hm
        exact ⟨rfl, op.env.now, rfl⟩
      · rw [AList.lookup_insert_ne hkeq] at hkm
        exact hk k m hkm

theorem foldl_serve_inv (J : Json) (ops : List Op) (s : Server) (h : s.Inv) :
    (ops.foldl (serve J) s).Inv := by
  induction ops generalizing s with
  | nil => exact h
  | cons op ops ih => exact ih _ (serve_inv J s op h)

theorem run_inv (J : Json) (ops : List Op) : (run J ops).Inv := by
  apply foldl_serve_inv
  refine ⟨rfl, ?_⟩
  intro k m hkm
  simp [newMeetingScheduler] at hkm

theorem serve_post_accepted (J : Json) (p : Env × Request) (m : Meeting) (s : Store)
    (h : Accepts J p.2 m) :
    serve J ⟨⟨false, s⟩, false⟩ (postOp p)
      = ⟨⟨false, s.insert (Sprintf_d p.1.now) { m with Id := Sprintf_d p.1.now }⟩, false⟩ := by
  simp [serve, handle, postOp, post_accepted J p.1 p.2 m s h]

/-- Creates with pairwise different clock readings, none of them rendered as
a key already stored, add one key each. -/
theorem foldl_posts_keys (J : Json) (posts : List (Env × Request)) (s : Store)
    (hacc : ∀ p ∈ posts, ∃ m, Accepts J p.2 m)
    (hnd : (posts.map fun p => p.1.now).Nodup)
    (hfresh : ∀ p ∈ posts, Sprintf_d p.1.now ∉ s.keys) :
    ∃ s' : Store,
      (posts.map postOp).foldl (serve J) ⟨⟨false, s⟩, false⟩ = ⟨⟨false, s'⟩, false⟩ ∧
      s'.keys = (posts.map fun p => Sprintf_d p.1.now).reverse ++ s.keys := by
  induction posts generalizing s with
  | nil => exact ⟨s, rfl, by simp⟩
  | cons p ps ih =>
    obtain ⟨m, hm⟩ := hacc p (List.mem_cons_self p ps)
    have hnd2 : p.1.now ∉ (ps.map fun q => q.1.now) ∧ (ps.map fun q => q.1.now).Nodup := by
      simpa using hnd
    have hk : (s.insert (Sprintf_d p.1.now)
        ({ m with Id := Sprintf_d p.1.now } : Meeting)).keys = Sprintf_d p.1.now :: s.keys := by
      rw [AList.keys_insert, List.erase_of_not_mem (hfresh p (List.mem_cons_self p ps))]
    obtain ⟨s', hs', hkeys⟩ := ih
      (s.insert (Sprintf_d p.1.now) ({ m with Id := Sprintf_d p.1.now } : Meeting))
      (fun q hq => hacc q (List.mem_cons_of_mem p hq)) hnd2.2
      (by
        intro q hq
        rw [hk]
        intro hmem
        rcases List.mem_cons.mp hmem with heq | hin
        · exact hnd2.1 (by
            rw [← Sprintf_d_injective heq]
            exact List.mem_map.mpr ⟨q, hq, rfl⟩)
        · exact hfresh q (List.mem_cons_of_mem p hq) hin)
    refine ⟨s', ?_, ?_⟩
    · rw [List.map_cons, List.foldl_cons, serve_post_accepted J p m s hm]
      exact hs'
    · rw [hkeys, hk]
      simp

/-- Every order of the entries is the visiting order of some seed, so ranging
over all seeds ranges over all iteration orders. -/
theorem rangeOrder_complete {α : Type} (l' l : List α) (h : l'.Perm l) :
    ∃ seed, rangeOrder seed l = l' := by
  induction l' generalizing l with
  | nil =>
    have hl : l = [] := (List.Perm.nil_eq h).symm
    exact ⟨[], by rw [hl]; rfl⟩
  | cons y ys ih =>
    have hy : y ∈ l := h.mem_iff.mp (List.mem_cons_self y ys)
    obtain ⟨i, hi, hget⟩ := List.mem_iff_getElem.mp hy
    cases l with
    | nil => simp at hi
    | cons x xs =>
      have hD : (x :: xs).getD i x = y := by
        rw [List.getD_eq_getElem _ _ hi]; exact hget
      have hp : (y :: (x :: xs).eraseIdx i).Perm (y :: ys) := by
        have h1 := getD_cons_eraseIdx_perm (x :: xs) i x hi
        rw [hD] at h1
        exact h1.trans h.symm
      obtain ⟨seed, hseed⟩ := ih ((x :: xs).eraseIdx i) hp.cons_inv.symm
      have hmod : i % (xs.length + 1) = i := Nat.mod_eq_of_lt (by simpa using hi)
      refine ⟨i :: seed, ?_⟩
      simp only [rangeOrder, hmod, hD, hseed]

/-! ## The properties of the specification -/

/-- C9 (create postcondition and frame): `post`, on a request it accepts with
decoded meeting `m` and clock reading `env.now`, stores under the key
`k = Sprintf_d env.now`, which is not the empty string, the meeting `m` with
`Id` replaced by `k`; every other key maps to what it mapped to before; and
when `k` was not a key before, the map has one entry more and every meeting
stored before is still stored under its key. -/
theorem post_postcondition_frame (J : Json) (env : Env) (r : Request) (m : Meeting)
    (s : Store) (h : Accepts J r m) :
    Sprintf_d env.now ≠ "" ∧
    (post J env r (Exec.start ⟨false, s⟩)).h.store.lookup (Sprintf_d env.now)
      = some ⟨Sprintf_d env.now, m.Title, m.Participants, m.StartTime, m.EndTime,
          m.CreationTimeStamp⟩ ∧
    (∀ j, j ≠ Sprintf_d env.now →
      (post J env r (Exec.start ⟨false, s⟩)).h.store.lookup j = s.lookup j) ∧
    (Sprintf_d env.now ∉ s.keys →
      (post J env r (Exec.start ⟨false, s⟩)).h.store.entries.length = s.entries.length + 1 ∧
      ∀ j v, s.lookup j = some v →
        (post J env r (Exec.start ⟨false, s⟩)).h.store.lookup j = some v) := by
  rw [post_accepted J env r m s h]
  refine ⟨Sprintf_d_ne_empty _, ?_, ?_, ?_⟩
  · simp
  · intro j hj
    simp [AList.lookup_insert_ne hj]
  · intro hk
    constructor
    · simp only [AList.insert_entries_of_neg hk, List.length_cons]
    · intro j v hv
      have hj : j ≠ Sprintf_d env.now := by
        intro hc
        subst hc
        exact hk (AList.mem_keys.mp (AList.lookup_isSome.mp (by simp [hv])))
      simp only [AList.lookup_insert_ne hj, hv]

/-- Worked instance of C9: a create read at clock 5 on the empty store. -/
theorem post_postcondition_frame_witness :
    Accepts sampleJson (sampleCreate "Standup") { Meeting.zero with Title := "Standup" } ∧
    (post sampleJson (sampleEnv 5) (sampleCreate "Standup")
        (Exec.start ⟨false, ∅⟩)).h.store.lookup "5"
      = some ⟨"5", "Standup", [], ⟨0, 0⟩, ⟨0, 0⟩, ⟨0, 0⟩⟩ :=
  ⟨⟨"Standup", rfl, rfl, rfl⟩,
    (post_postcondition_frame sampleJson (sampleEnv 5) (sampleCreate "Standup")
      { Meeting.zero with Title := "Standup" } ∅ ⟨"Standup", rfl, rfl, rfl⟩).2.1⟩

/-- C8 as stated fails: a create that `post` accepts at clock 5 stores the
meeting under the identifier "5", yet the response body stays empty, so the
response does not contain the identifier. -/
theorem post_response_omits_id :
    Accepts sampleJson (sampleCreate "Standup") { Meeting.zero with Title := "Standup" } ∧
    (post sampleJson (sampleEnv 5) (sampleCreate "Standup")
        (Exec.start newMeetingScheduler)).h.store.lookup (Sprintf_d 5)
      = some ⟨Sprintf_d 5, "Standup", [], ⟨0, 0⟩, ⟨0, 0⟩, ⟨0, 0⟩⟩ ∧
    ¬ (Sprintf_d 5).data <:+:
        (post sampleJson (sampleEnv 5) (sampleCreate "Standup")
          (Exec.start newMeetingScheduler)).w.body.data := by
  have hacc : Accepts sampleJson (sampleCreate "Standup")
      { Meeting.zero with Title := "Standup" } := ⟨"Standup", rfl, rfl, rfl⟩
  refine ⟨hacc, ?_, ?_⟩
  · rw [newMeetingScheduler, post_accepted sampleJson (sampleEnv 5) _ _ ∅ hacc]
    exact AList.lookup_insert _
  · rw [newMeetingScheduler, post_accepted sampleJson (sampleEnv 5) _ _ ∅ hacc]
    intro hc
    have h5 : (Sprintf_d 5).data = ['5'] := rfl
    rw [h5] at hc
    simp at hc

/-- C8 (amended): on a request it accepts `post` writes nothing to the response
(no status, no header, no body), never faults and leaves the mutex free; the
identifier it assigned is not empty and is the key and the `Id` of the meeting
it stored. -/
theorem post_writes_no_response (J : Json) (env : Env) (r : Request) (m : Meeting)
    (s : Store) (h : Accepts J r m) :
    (post J env r (Exec.start ⟨false, s⟩)).w = ⟨none, [], ""⟩ ∧
    (post J env r (Exec.start ⟨false, s⟩)).fault = none ∧
    (post J env r (Exec.start ⟨false, s⟩)).h.locked = false ∧
    Sprintf_d env.now ≠ "" ∧
    ∃ stored, (post J env r (Exec.start ⟨false, s⟩)).h.store.lookup (Sprintf_d env.now)
        = some stored ∧ stored.Id = Sprintf_d env.now := by
  rw [post_accepted J env r m s h]
  exact ⟨rfl, rfl, rfl, Sprintf_d_ne_empty _, _, AList.lookup_insert _, rfl⟩

/-- Worked instance of the amended C8. -/
theorem post_writes_no_response_witness :
    Accepts sampleJson (sampleCreate "Retro") { Meeting.zero with Title := "Retro" } ∧
    (post sampleJson (sampleEnv 7) (sampleCreate "Retro") (Exec.start ⟨false, ∅⟩)).w
      = ⟨none, [], ""⟩ :=
  ⟨⟨"Retro", rfl, rfl, rfl⟩,
    (post_writes_no_response sampleJson (sampleEnv 7) (sampleCreate "Retro")
      { Meeting.zero with Title := "Retro" } ∅ ⟨"Retro", rfl, rfl, rfl⟩).1⟩

/-- C6 (rejection is atomic): when the body of the request was read, `post`
answers 415 if the content type is not "application/json", and otherwise 400
if the body does not decode; in both cases the scheduler (mutex and map) is
what it was, the map was neither read nor written, and a list taken afterwards
is the list taken before. -/
theorem post_rejection_atomic (J : Json) (env : Env) (r : Request) (b : String)
    (h : meetingScheduler) (hb : r.Body = Except.ok b) :
    (r.contentType ≠ "application/json" →
      (post J env r (Exec.start h)).w.status = some 415 ∧
      (post J env r (Exec.start h)).h = h ∧
      (post J env r (Exec.start h)).trace = [Event.enter Handler.post] ∧
      ∀ order, get_meetings order (post J env r (Exec.start h)).h.store
        = get_meetings order h.store) ∧
    (r.contentType = "application/json" → ∀ err, J.Unmarshal b = Except.error err →
      (post J env r (Exec.start h)).w.status = some 400 ∧
      (post J env r (Exec.start h)).h = h ∧
      (post J env r (Exec.start h)).trace = [Event.enter Handler.post] ∧
      ∀ order, get_meetings order (post J env r (Exec.start h)).h.store
        = get_meetings order h.store) := by
  constructor
  · intro hct
    rw [post_wrongType J env r b _ hb hct]
    exact ⟨rfl, rfl, rfl, fun _ => rfl⟩
  · intro hct err hm
    rw [post_badBody J env r b err _ hb hct hm]
    exact ⟨rfl, rfl, rfl, fun _ => rfl⟩

/-- Worked instance of C6: a create sent as text/plain is answered 415 and the
scheduler is untouched. -/
theorem post_rejection_atomic_witness :
    (⟨"POST", "/meetings", "text/plain", Except.ok "Standup"⟩ : Request).Body
      = Except.ok "Standup" ∧
    (post sampleJson (sampleEnv 5) ⟨"POST", "/meetings", "text/plain", Except.ok "Standup"⟩
        (Exec.start newMeetingScheduler)).w.status = some 415 ∧
    (post sampleJson (sampleEnv 5) ⟨"POST", "/meetings", "text/plain", Except.ok "Standup"⟩
        (Exec.start newMeetingScheduler)).h = newMeetingScheduler :=
  ⟨rfl,
    ((post_rejection_atomic sampleJson (sampleEnv 5)
      ⟨"POST", "/meetings", "text/plain", Except.ok "Standup"⟩ "Standup" newMeetingScheduler
      rfl).1 (by decide)).1,
    ((post_rejection_atomic sampleJson (sampleEnv 5)
      ⟨"POST", "/meetings", "text/plain", Except.ok "Standup"⟩ "Standup" newMeetingScheduler
      rfl).1 (by decide)).2.1⟩

/-- C7 (random bounds): from a free mutex `getRandomMeeting` never faults and
leaves the scheduler as it found it; on an empty map it answers 404; on a
non-empty map it answers 302 with location "/meetings/" followed by a key of
the map; and on a map with a single entry that key is the entry's key, whatever
the random draw and the iteration order. -/
theorem getRandomMeeting_bounds (env : Env) (r : Request) (s : Store) :
    (getRandomMeeting env r (Exec.start ⟨false, s⟩)).h = ⟨false, s⟩ ∧
    (getRandomMeeting env r (Exec.start ⟨false, s⟩)).fault = none ∧
    (s.entries = [] →
      (getRandomMeeting env r (Exec.start ⟨false, s⟩)).w = ⟨some 404, [], ""⟩) ∧
    (s.entries ≠ [] → ∃ id, id ∈ s.keys ∧
      (getRandomMeeting env r (Exec.start ⟨false, s⟩)).w
        = ⟨some 302, [("location", "/meetings/" ++ id)], ""⟩) ∧
    (∀ k m, s.entries = [⟨k, m⟩] →
      (getRandomMeeting env r (Exec.start ⟨false, s⟩)).w
        = ⟨some 302, [("location", "/meetings/" ++ k)], ""⟩) := by
  rw [Exec.start, getRandomMeeting_free]
  refine ⟨rfl, rfl, ?_, ?_, ?_⟩
  · intro h0
    simp [h0]
  · intro hne
    have hpos : 0 < s.entries.length := List.length_pos.mpr hne
    have hlen : ((rangeOrder env.order s.entries).map (fun kv => kv.1)).length
        = s.entries.length := by simp [rangeOrder_length]
    have hmem : ∀ i, i < s.entries.length →
        ((rangeOrder env.order s.entries).map (fun kv => kv.1)).getD i "" ∈ s.keys := by
      intro i hi
      have hi2 : i < ((rangeOrder env.order s.entries).map (fun kv => kv.1)).length := by
        rw [hlen]; exact hi
      rw [List.getD_eq_getElem _ _ hi2]
      have hin := List.getElem_mem hi2
      have hperm : ((rangeOrder env.order s.entries).map (fun kv => kv.1)).Perm s.keys :=
        (rangeOrder_perm env.order s.entries).map _
      exact hperm.mem_iff.mp hin
    rw [if_neg (Nat.pos_iff_ne_zero.mp hpos)]
    by_cases h1 : s.entries.length = 1
    · rw [if_pos h1]
      exact ⟨_, hmem 0 hpos, rfl⟩
    · rw [if_neg h1]
      exact ⟨_, hmem _ (Nat.mod_lt _ hpos), rfl⟩
  · intro k m hs
    have hr : rangeOrder env.order s.entries = [⟨k, m⟩] := by
      have hp := rangeOrder_perm env.order s.entries
      rw [hs] at hp
      rw [hs]
      exact List.perm_singleton.mp hp
    have hl : s.entries.length = 1 := by rw [hs]; rfl
    rw [hr, hl]
    rfl

/-- Worked instance of C7: on a store with the single key "5" the redirect
goes to "/meetings/5" for the draw 3. -/
theorem getRandomMeeting_bounds_witness :
    ((∅ : Store).insert "5" ⟨"5", "Standup", [], ⟨0, 0⟩, ⟨0, 0⟩, ⟨0, 0⟩⟩).entries
      = [⟨"5", ⟨"5", "Standup", [], ⟨0, 0⟩, ⟨0, 0⟩, ⟨0, 0⟩⟩⟩] ∧
    (getRandomMeeting ⟨9, [4, 2], 3⟩ (sampleLookup "random/x/y")
      (Exec.start ⟨false,
        (∅ : Store).insert "5" ⟨"5", "Standup", [], ⟨0, 0⟩, ⟨0, 0⟩, ⟨0, 0⟩⟩⟩)).w
      = ⟨some 302, [("location", "/meetings/" ++ "5")], ""⟩ :=
  ⟨rfl,
    (getRandomMeeting_bounds ⟨9, [4, 2], 3⟩ (sampleLookup "random/x/y")
      ((∅ : Store).insert "5" ⟨"5", "Standup", [], ⟨0, 0⟩, ⟨0, 0⟩, ⟨0, 0⟩⟩)).2.2.2.2
      "5" ⟨"5", "Standup", [], ⟨0, 0⟩, ⟨0, 0⟩, ⟨0, 0⟩⟩ rfl⟩

/-- C5 fails on the code: started on any map with the mutex free, `get` reads
`len(h.store)` and ranges over the map without having locked, then calls
`h.Unlock()` on the free mutex, which is a fault, and writes no response;
`getRandomMeeting` reads `len(h.store)` before it locks.  Neither trace keeps
the lock discipline. -/
theorem get_unlocks_free_mutex (J : Json) (env : Env) (r : Request) (s : Store) :
    (get J env r (Exec.start ⟨false, s⟩)).fault = some Fault.unlockOfUnlockedMutex ∧
    (get J env r (Exec.start ⟨false, s⟩)).trace
      = [Event.enter Handler.get, Event.readStore] ∧
    (get J env r (Exec.start ⟨false, s⟩)).w.status = none ∧
    lockDiscipline false (get J env r (Exec.start ⟨false, s⟩)).trace = false ∧
    (getRandomMeeting env r (Exec.start ⟨false, s⟩)).trace
      = [Event.enter Handler.getRandomMeeting, Event.readStore, Event.lock,
          Event.readStore, Event.unlock] ∧
    lockDiscipline false (getRandomMeeting env r (Exec.start ⟨false, s⟩)).trace = false := by
  rw [Exec.start, get_free, getRandomMeeting_free]
  exact ⟨rfl, rfl, rfl, rfl, rfl, rfl⟩

/-- On a request it accepts, `post` keeps the lock discipline. -/
theorem post_lockDiscipline (J : Json) (env : Env) (r : Request) (m : Meeting) (s : Store)
    (h : Accepts J r m) :
    lockDiscipline false (post J env r (Exec.start ⟨false, s⟩)).trace = true := by
  rw [post_accepted J env r m s h]
  rfl

/-- C1 fails on the code: after `post` has stored a meeting under the
identifier "5", `getMeeting` called with the URL "/meeting/5" looks up element
0 of the split URL, the empty string, and answers 404 with an empty body,
although the meeting is stored under "5". -/
theorem getMeeting_after_post_not_found :
    Accepts sampleJson (sampleCreate "Standup") { Meeting.zero with Title := "Standup" } ∧
    (post sampleJson (sampleEnv 5) (sampleCreate "Standup")
        (Exec.start newMeetingScheduler)).h.store.lookup "5"
      = some ⟨"5", "Standup", [], ⟨0, 0⟩, ⟨0, 0⟩, ⟨0, 0⟩⟩ ∧
    Split "/meeting/5" '/' = ["", "meeting", "5"] ∧
    (getMeeting sampleJson (sampleEnv 6) (sampleLookup "/meeting/5")
        (Exec.start (post sampleJson (sampleEnv 5) (sampleCreate "Standup")
          (Exec.start newMeetingScheduler)).h)).w
      = ⟨some 404, [], ""⟩ := by
  have hacc : Accepts sampleJson (sampleCreate "Standup")
      { Meeting.zero with Title := "Standup" } := ⟨"Standup", rfl, rfl, rfl⟩
  refine ⟨hacc, ?_, by decide, ?_⟩
  · rw [newMeetingScheduler, post_accepted sampleJson (sampleEnv 5) _ _ ∅ hacc]
    exact AList.lookup_insert _
  · rw [newMeetingScheduler, post_accepted sampleJson (sampleEnv 5) _ _ ∅ hacc]
    decide

/-- C10 (`getMeeting` looks up element 0 of the split URL): on a scheduler
reached from `newMeetingScheduler()` by creates, every key is the rendering of
a clock reading and not the empty string; for a request URL that begins with
"/", `getMeeting` answers 404 with an empty body, never enters
`getRandomMeeting`, never faults and leaves the scheduler as it was, and when
the URL does not split into 3 parts it neither locks nor reads the map.  On any
scheduler and for any URL that does not split into 3 parts, `getMeeting`
answers 404 without locking or reading the map. -/
theorem getMeeting_slash_not_found (J : Json) (posts : List (Env × Request)) (env : Env)
    (r : Request) (hurl : r.URL.data.head? = some '/') :
    (∀ k, k ∈ (run J (posts.map postOp)).h.store.keys → k ≠ "" ∧ ∃ t : Int, k = Sprintf_d t) ∧
    (getMeeting J env r (Exec.start (run J (posts.map postOp)).h)).w = ⟨some 404, [], ""⟩ ∧
    Event.enter Handler.getRandomMeeting ∉
      (getMeeting J env r (Exec.start (run J (posts.map postOp)).h)).trace ∧
    (getMeeting J env r (Exec.start (run J (posts.map postOp)).h)).fault = none ∧
    (getMeeting J env r (Exec.start (run J (posts.map postOp)).h)).h
      = (run J (posts.map postOp)).h ∧
    ((Split r.URL '/').length ≠ 3 →
      (getMeeting J env r (Exec.start (run J (posts.map postOp)).h)).trace
        = [Event.enter Handler.getMeeting]) ∧
    (∀ (h0 : meetingScheduler) (env2 : Env) (r2 : Request), (Split r2.URL '/').length ≠ 3 →
      (getMeeting J env2 r2 (Exec.start h0)).w = ⟨some 404, [], ""⟩ ∧
      (getMeeting J env2 r2 (Exec.start h0)).trace = [Event.enter Handler.getMeeting] ∧
      (getMeeting J env2 r2 (Exec.start h0)).h = h0) := by
  have hinv := run_inv J (posts.map postOp)
  have hkeys : ∀ k, k ∈ (run J (posts.map postOp)).h.store.keys →
      k ≠ "" ∧ ∃ t : Int, k = Sprintf_d t := by
    intro k hk
    obtain ⟨m, hm⟩ := Option.isSome_iff_exists.mp (AList.lookup_isSome.mpr (AList.mem_keys.mpr hk))
    obtain ⟨_, t, ht⟩ := hinv.2 k m hm
    exact ⟨by rw [ht]; exact Sprintf_d_ne_empty t, t, ht⟩
  have hshort : ∀ (h0 : meetingScheduler) (env2 : Env) (r2 : Request),
      (Split r2.URL '/').length ≠ 3 →
      (getMeeting J env2 r2 (Exec.start h0)).w = ⟨some 404, [], ""⟩ ∧
      (getMeeting J env2 r2 (Exec.start h0)).trace = [Event.enter Handler.getMeeting] ∧
      (getMeeting J env2 r2 (Exec.start h0)).h = h0 := by
    intro h0 env2 r2 h3
    rw [getMeeting_short J env2 r2 _ h3]
    exact ⟨rfl, rfl, rfl⟩
  refine ⟨hkeys, ?_⟩
  generalize run J (posts.map postOp) = srv at hinv hkeys
  obtain ⟨⟨lk, st⟩, stopped⟩ := srv
  have hl : lk = false := hinv.1
  subst hl
  have h0 : (Split r.URL '/').getD 0 "" = "" := Split_of_head r.URL hurl
  have hnone : st.lookup ((Split r.URL '/').getD 0 "") = none := by
    rw [h0]
    cases hlk : st.lookup "" with
    | none => rfl
    | some m =>
      have hk : "" ∈ st.keys := AList.mem_keys.mp (AList.lookup_isSome.mp (by rw [hlk]; rfl))
      exact absurd rfl (hkeys "" hk).1
  have hr : (Split r.URL '/').getD 0 "" ≠ "random" := by
    rw [h0]; decide
  by_cases h3 : (Split r.URL '/').length = 3
  · have hg := getMeeting_absent J env r st [] h3 hr hnone
    rw [Exec.start, hg]
    have htr : Event.enter Handler.getRandomMeeting ∉
        [Event.enter Handler.getMeeting, Event.lock, Event.readStore, Event.unlock] := by
      decide
    exact ⟨rfl, htr, rfl, rfl, fun hc => absurd h3 hc, hshort⟩
  · obtain ⟨h1, h2, h4⟩ := hshort ⟨false, st⟩ env r h3
    refine ⟨h1, ?_, ?_, h4, fun _ => h2, hshort⟩
    · rw [h2]; decide
    · rw [getMeeting_short J env r _ h3]; rfl

/-- Worked instance of C10: the URL the route "/meeting/" serves, after one
create. -/
theorem getMeeting_slash_not_found_witness :
    (sampleLookup "/meeting/5").URL.data.head? = some '/' ∧
    (getMeeting sampleJson (sampleEnv 6) (sampleLookup "/meeting/5")
      (Exec.start (run sampleJson
        ([(sampleEnv 5, sampleCreate "Standup")].map postOp)).h)).w = ⟨some 404, [], ""⟩ :=
  ⟨rfl,
    (getMeeting_slash_not_found sampleJson [(sampleEnv 5, sampleCreate "Standup")]
      (sampleEnv 6) (sampleLookup "/meeting/5") rfl).2.1⟩

/-- C4 (key/id invariant): in the scheduler reached from
`newMeetingScheduler()` by any finite sequence of handler calls (`meetings`,
`get`, `post`, `getRandomMeeting`, `getMeeting`, with any request, clock
reading, iteration order and random draw), every key of the map is the `Id` of
the meeting stored under it. -/
theorem key_id_invariant (J : Json) (ops : List Op) (k : String) (m : Meeting)
    (h : (run J ops).h.store.lookup k = some m) : m.Id = k :=
  ((run_inv J ops).2 k m h).1

/-- Worked instance of C4: a create followed by a random pick and a lookup. -/
theorem key_id_invariant_witness :
    (run sampleJson
        [postOp (sampleEnv 5, sampleCreate "Standup"),
          ⟨Handler.getRandomMeeting, sampleEnv 6, sampleLookup "/meeting/random"⟩,
          ⟨Handler.getMeeting, sampleEnv 7, sampleLookup "/meeting/5"⟩]).h.store.lookup "5"
      = some ⟨"5", "Standup", [], ⟨0, 0⟩, ⟨0, 0⟩, ⟨0, 0⟩⟩ ∧
    (⟨"5", "Standup", [], ⟨0, 0⟩, ⟨0, 0⟩, ⟨0, 0⟩⟩ : Meeting).Id = "5" :=
  ⟨by decide,
    key_id_invariant sampleJson
      [postOp (sampleEnv 5, sampleCreate "Standup"),
        ⟨Handler.getRandomMeeting, sampleEnv 6, sampleLookup "/meeting/random"⟩,
        ⟨Handler.getMeeting, sampleEnv 7, sampleLookup "/meeting/5"⟩]
      "5" ⟨"5", "Standup", [], ⟨0, 0⟩, ⟨0, 0⟩, ⟨0, 0⟩⟩ (by decide)⟩

/-- C3 as stated fails: two creates that `post` accepts, both reading clock 5,
applied one after the other to the empty store, leave one entry, not two. -/
theorem posts_same_clock_one_entry :
    Accepts sampleJson (sampleCreate "A") { Meeting.zero with Title := "A" } ∧
    Accepts sampleJson (sampleCreate "B") { Meeting.zero with Title := "B" } ∧
    (run sampleJson
      ([(sampleEnv 5, sampleCreate "A"), (sampleEnv 5, sampleCreate "B")].map postOp)).h.store.keys
      = ["5"] ∧
    (run sampleJson
      ([(sampleEnv 5, sampleCreate "A"),
        (sampleEnv 5, sampleCreate "B")].map postOp)).h.store.entries.length ≠ 2 :=
  ⟨⟨"A", rfl, rfl, rfl⟩, ⟨"B", rfl, rfl, rfl⟩, by decide, by decide⟩

/-- C3 (amended): for every sequence of creates that `post` accepts, applied
one after another to the store of `newMeetingScheduler()`, if the clock
readings the calls observe are pairwise different, then the process is not
stopped, the identifiers assigned are pairwise different, the keys of the store
are exactly these identifiers, and the store has as many entries as there were
creates. -/
theorem distinct_clocks_distinct_ids (J : Json) (posts : List (Env × Request))
    (hacc : ∀ p ∈ posts, ∃ m, Accepts J p.2 m)
    (hnd : (posts.map fun p => p.1.now).Nodup) :
    (run J (posts.map postOp)).stopped = false ∧
    (posts.map fun p => Sprintf_d p.1.now).Nodup ∧
    (run J (posts.map postOp)).h.store.keys = (posts.map fun p => Sprintf_d p.1.now).reverse ∧
    (run J (posts.map postOp)).h.store.keys.Nodup ∧
    (run J (posts.map postOp)).h.store.entries.length = posts.length := by
  obtain ⟨s', hs', hkeys⟩ := foldl_posts_keys J posts ∅ hacc hnd (by simp)
  have hrun : run J (posts.map postOp) = ⟨⟨false, s'⟩, false⟩ := hs'
  have hk : s'.keys = (posts.map fun p => Sprintf_d p.1.now).reverse := by
    simpa using hkeys
  have hids : (posts.map fun p => Sprintf_d p.1.now).Nodup := by
    have := List.Nodup.map Sprintf_d_injective hnd
    simpa [List.map_map, Function.comp_def] using this
  rw [hrun]
  refine ⟨rfl, hids, hk, s'.keys_nodup, ?_⟩
  have hlen : s'.keys.length = posts.length := by rw [hk]; simp
  simpa [AList.keys, List.keys] using hlen

/-- Worked instance of the amended C3: two creates at clocks 5 and 6. -/
theorem distinct_clocks_distinct_ids_witness :
    (∀ p ∈ [(sampleEnv 5, sampleCreate "A"), (sampleEnv 6, sampleCreate "B")],
      ∃ m, Accepts sampleJson p.2 m) ∧
    ([(sampleEnv 5, sampleCreate "A"), (sampleEnv 6, sampleCreate "B")].map
      fun p => p.1.now).Nodup ∧
    (run sampleJson
      ([(sampleEnv 5, sampleCreate "A"),
        (sampleEnv 6, sampleCreate "B")].map postOp)).h.store.entries.length = 2 :=
  have hacc : ∀ p ∈ [(sampleEnv 5, sampleCreate "A"), (sampleEnv 6, sampleCreate "B")],
      ∃ m, Accepts sampleJson p.2 m := by
    intro p hp
    simp only [List.mem_cons, List.mem_singleton, List.not_mem_nil, or_false] at hp
    rcases hp with rfl | rfl
    · exact ⟨_, "A", rfl, rfl, rfl⟩
    · exact ⟨_, "B", rfl, rfl, rfl⟩
  ⟨hacc, by decide,
    (distinct_clocks_distinct_ids sampleJson
      [(sampleEnv 5, sampleCreate "A"), (sampleEnv 6, sampleCreate "B")] hacc
      (by decide)).2.2.2.2⟩

/-- C2 (list completeness): the slice `get` builds has as many elements as the
map has entries and is a permutation of the meetings stored in the map,
whatever the iteration order; `get` leaves the map as it was.  What `get` does
with that slice: entered with the mutex held, it releases the mutex and
answers with the marshalling of exactly that slice (200 with content type
"application/json", or 500 with the error text when marshalling fails);
entered with the mutex free, it stops at its `h.Unlock()` with nothing written.
After three accepted creates with pairwise different identifiers on the empty
store the slice is a permutation of the three stored meetings. -/
theorem get_list_complete (J : Json) (env : Env) (r : Request) (lk : Bool) (s : Store) :
    (get_meetings env.order s).length = s.entries.length ∧
    (get_meetings env.order s).Perm (s.entries.map fun kv => kv.2) ∧
    (∀ k m, s.lookup k = some m → m ∈ get_meetings env.order s) ∧
    (get J env r (Exec.start ⟨lk, s⟩)).h.store = s ∧
    get J env r (Exec.start ⟨true, s⟩)
      = ⟨⟨false, s⟩,
          (match J.MarshalMeetings (get_meetings env.order s) with
            | Except.ok jsonBytes =>
                ⟨some 200, [("content-type", "application/json")], jsonBytes⟩
            | Except.error err => ⟨some 500, [], err⟩),
          [Event.enter Handler.get, Event.readStore, Event.unlock], none⟩ ∧
    get J env r (Exec.start ⟨false, s⟩)
      = ⟨⟨false, s⟩, ⟨none, [], ""⟩, [Event.enter Handler.get, Event.readStore],
          some Fault.unlockOfUnlockedMutex⟩ ∧
    (∀ (p1 p2 p3 : Env × Request) (m1 m2 m3 : Meeting),
      Accepts J p1.2 m1 → Accepts J p2.2 m2 → Accepts J p3.2 m3 →
      Sprintf_d p1.1.now ≠ Sprintf_d p2.1.now →
      Sprintf_d p1.1.now ≠ Sprintf_d p3.1.now →
      Sprintf_d p2.1.now ≠ Sprintf_d p3.1.now →
      (get_meetings env.order (run J [postOp p1, postOp p2, postOp p3]).h.store).Perm
        [{ m1 with Id := Sprintf_d p1.1.now }, { m2 with Id := Sprintf_d p2.1.now },
          { m3 with Id := Sprintf_d p3.1.now }]) := by
  have hperm : ∀ st : Store, (get_meetings env.order st).Perm (st.entries.map fun kv => kv.2) := by
    intro st
    rw [get_meetings_eq]
    exact (rangeOrder_perm env.order st.entries).map _
  have hheld : get J env r (Exec.start ⟨true, s⟩)
      = ⟨⟨false, s⟩,
          (match J.MarshalMeetings (get_meetings env.order s) with
            | Except.ok jsonBytes =>
                ⟨some 200, [("content-type", "application/json")], jsonBytes⟩
            | Except.error err => ⟨some 500, [], err⟩),
          [Event.enter Handler.get, Event.readStore, Event.unlock], none⟩ := by
    simp only [get, Exec.start, Exec.note, Exec.Unlock, Exec.next, if_true]
    cases J.MarshalMeetings (get_meetings env.order s) with
    | error err =>
      simp [Exec.WriteHeader, Exec.Write, Exec.HeaderAdd, ResponseWriter.WriteHeader,
        ResponseWriter.Write, ResponseWriter.HeaderAdd]
    | ok jsonBytes =>
      simp [Exec.WriteHeader, Exec.Write, Exec.HeaderAdd, ResponseWriter.WriteHeader,
        ResponseWriter.Write, ResponseWriter.HeaderAdd]
  have hfree : get J env r (Exec.start ⟨false, s⟩)
      = ⟨⟨false, s⟩, ⟨none, [], ""⟩, [Event.enter Handler.get, Event.readStore],
          some Fault.unlockOfUnlockedMutex⟩ := by
    rw [Exec.start, get_free]
    rfl
  refine ⟨by simpa using (hperm s).length_eq, hperm s, ?_, ?_, hheld, hfree, ?_⟩
  · intro k m hkm
    have hmem : (⟨k, m⟩ : Sigma fun _ : String => Meeting) ∈ s.entries :=
      AList.mem_lookup_iff.mp hkm
    exact (hperm s).mem_iff.mpr (List.mem_map.mpr ⟨⟨k, m⟩, hmem, rfl⟩)
  · cases lk with
    | false => rw [hfree]
    | true => rw [hheld]
  · intro p1 p2 p3 m1 m2 m3 h1 h2 h3 h12 h13 h23
    have hrun : run J [postOp p1, postOp p2, postOp p3]
        = ⟨⟨false, ((((∅ : Store).insert (Sprintf_d p1.1.now)
              ({ m1 with Id := Sprintf_d p1.1.now } : Meeting)).insert (Sprintf_d p2.1.now)
              ({ m2 with Id := Sprintf_d p2.1.now } : Meeting)).insert (Sprintf_d p3.1.now)
              ({ m3 with Id := Sprintf_d p3.1.now } : Meeting))⟩, false⟩ := by
      simp only [run, List.foldl, newMeetingScheduler]
      rw [serve_post_accepted J p1 m1 _ h1, serve_post_accepted J p2 m2 _ h2,
        serve_post_accepted J p3 m3 _ h3]
    rw [hrun]
    refine (hperm _).trans ?_
    have hn2 : Sprintf_d p2.1.now ∉ ((∅ : Store).insert (Sprintf_d p1.1.now)
        ({ m1 with Id := Sprintf_d p1.1.now } : Meeting)) := by
      intro hc
      rcases (AList.mem_insert _).mp hc with h | h
      · exact h12 h.symm
      · exact AList.not_mem_empty _ h
    have hn3 : Sprintf_d p3.1.now ∉ (((∅ : Store).insert (Sprintf_d p1.1.now)
        ({ m1 with Id := Sprintf_d p1.1.now } : Meeting)).insert (Sprintf_d p2.1.now)
        ({ m2 with Id := Sprintf_d p2.1.now } : Meeting)) := by
      intro hc
      rcases (AList.mem_insert _).mp hc with h | h
      · exact h23 h.symm
      · rcases (AList.mem_insert _).mp h with h | h
        · exact h13 h.symm
        · exact AList.not_mem_empty _ h
    have hn1 : Sprintf_d p1.1.now ∉ (∅ : Store) := AList.not_mem_empty _
    simp only [AList.insert_entries_of_neg hn3, AList.insert_entries_of_neg hn2,
      AList.insert_entries_of_neg hn1, AList.empty_entries, List.map_cons, List.map_nil]
    exact (List.reverse_perm _).symm.trans (by simp)

/-- Worked instance of C2: three creates at clocks 5, 6 and 7, then the slice
`get` builds, and the answer `get` gives when it is entered with the mutex
held: the titles in the order the map was ranged over. -/
theorem get_list_complete_witness :
    Accepts sampleJson (sampleCreate "A") { Meeting.zero with Title := "A" } ∧
    Sprintf_d 5 ≠ Sprintf_d 6 ∧ Sprintf_d 5 ≠ Sprintf_d 7 ∧ Sprintf_d 6 ≠ Sprintf_d 7 ∧
    (get_meetings [1, 0] (run sampleJson
        [postOp (sampleEnv 5, sampleCreate "A"), postOp (sampleEnv 6, sampleCreate "B"),
          postOp (sampleEnv 7, sampleCreate "C")]).h.store).Perm
      [⟨"5", "A", [], ⟨0, 0⟩, ⟨0, 0⟩, ⟨0, 0⟩⟩, ⟨"6", "B", [], ⟨0, 0⟩, ⟨0, 0⟩, ⟨0, 0⟩⟩,
        ⟨"7", "C", [], ⟨0, 0⟩, ⟨0, 0⟩, ⟨0, 0⟩⟩] ∧
    (get sampleJson ⟨0, [1, 0], 0⟩ (sampleLookup "/meetings")
      (Exec.start ⟨true, (run sampleJson
        [postOp (sampleEnv 5, sampleCreate "A"), postOp (sampleEnv 6, sampleCreate "B"),
          postOp (sampleEnv 7, sampleCreate "C")]).h.store⟩)).w
      = ⟨some 200, [("content-type", "application/json")], "BCA"⟩ :=
  ⟨⟨"A", rfl, rfl, rfl⟩, by decide, by decide, by decide,
    (get_list_complete sampleJson ⟨0, [1, 0], 0⟩ (sampleLookup "/meetings") false ∅).2.2.2.2.2.2
      (sampleEnv 5, sampleCreate "A") (sampleEnv 6, sampleCreate "B")
      (sampleEnv 7, sampleCreate "C")
      { Meeting.zero with Title := "A" } { Meeting.zero with Title := "B" }
      { Meeting.zero with Title := "C" }
      ⟨"A", rfl, rfl, rfl⟩ ⟨"B", rfl, rfl, rfl⟩ ⟨"C", rfl, rfl, rfl⟩
      (by decide) (by decide) (by decide),
    congrArg Exec.w
      (get_list_complete sampleJson ⟨0, [1, 0], 0⟩ (sampleLookup "/meetings") false
        (run sampleJson
          [postOp (sampleEnv 5, sampleCreate "A"), postOp (sampleEnv 6, sampleCreate "B"),
            postOp (sampleEnv 7, sampleCreate "C")]).h.store).2.2.2.2.1⟩

end MeetingAPI
